import Mathlib

/-!
Shallow embedding of the Orchid Visualizer chord engine
(`chordDetection.ts`, `midiUtils.ts`, `voicingUtils.ts`,
`chord.constants.ts`) and verification of its specified properties.

JS numeric conventions are modelled explicitly: the JS remainder
operator `%` (sign of the dividend) is `Int.tmod`, and
`Math.floor(x / 12)` is `Int.fdiv x 12`.  Arrays are lists; a JS
`undefined` element access is `Option.get?`; functions that can throw
return `Option` with `none` for the thrown case.
-/

/-- Chromatic scale note names, `BASE_NOTES` from `chord.constants.ts`:
C, C#, D, D#, E, F, F#, G, G#, A, A#, B (indices 0–11). -/
def BASE_NOTES : List String :=
  ["C", "C#", "D", "D#", "E", "F"] ++
    ["F#", "G", "G#", "A", "A#", "B"]

/-- The four chord qualities: the keys of `CHORD_DEFINITIONS`. -/
inductive ChordType where
  | Major
  | Minor
  | Diminished
  | Sus4
deriving DecidableEq, Repr

/-- The chord qualities in `CHORD_DEFINITIONS` insertion order
(the order `Object.entries` iterates them). -/
def allChordTypes : List ChordType :=
  [ChordType.Major, ChordType.Minor, ChordType.Diminished, ChordType.Sus4]

/-- The key string of a quality (template interpolation of the key). -/
def chordTypeFullName : ChordType → String
  | ChordType.Major => "Major"
  | ChordType.Minor => "Minor"
  | ChordType.Diminished => "Diminished"
  | ChordType.Sus4 => "Sus4"

/-- `shortName` field of `CHORD_DEFINITIONS`. -/
def chordShortName : ChordType → String
  | ChordType.Major => "Maj"
  | ChordType.Minor => "Min"
  | ChordType.Diminished => "Dim"
  | ChordType.Sus4 => "Sus"

/-- `intervals` field of `CHORD_DEFINITIONS`; also
`ROOT_POSITION_INTERVALS` of `chordDetection.ts`, which is derived from
the definitions table by projecting the `intervals` field. -/
def ROOT_POSITION_INTERVALS : ChordType → List Int
  | ChordType.Major => [0, 4, 7]
  | ChordType.Minor => [0, 3, 7]
  | ChordType.Diminished => [0, 3, 6]
  | ChordType.Sus4 => [0, 5, 7]

/-- `NOTE_OFFSETS` from `chord.constants.ts`: semitone offset of each
natural note from middle C (MIDI 60); `none` for keys absent from the
record. -/
def NOTE_OFFSETS (note : String) : Option Int :=
  if note = "C" then some (-11)
  else if note = "D" then some (-9)
  else if note = "E" then some (-7)
  else if note = "F" then some (-6)
  else if note = "G" then some (-4)
  else if note = "A" then some (-2)
  else if note = "B" then some 0
  else none

/-- `generateInversions` from `chordDetection.ts`.  The source throws
unless the list has exactly 3 entries; the throw is modelled as `none`.
For `[root, second, third]` it returns root position, first inversion
`[second, third, root+12]` and second inversion
`[third, root+12, second+12]`. -/
def generateInversions (rootPositionIntervals : List Int) :
    Option (List (List Int)) :=
  match rootPositionIntervals with
  | [root, second, third] =>
    some [[root, second, third],
          [second, third, root + 12],
          [third, root + 12, second + 12]]
  | _ => none

/-- `CHORD_PATTERNS` from `chordDetection.ts`: the three inversion
patterns of each quality, derived from its root-position intervals. -/
def CHORD_PATTERNS (ct : ChordType) : List (List Int) :=
  (generateInversions (ROOT_POSITION_INTERVALS ct)).getD []

/-- `getMIDINoteName` from `midiUtils.ts`: JS computes
`BASE_NOTES[midiNote % 12] ?? "C"` (the JS remainder is negative for
negative input, in which case the array access is `undefined` and the
fallback `"C"` applies) followed by `Math.floor(midiNote / 12) - 1`. -/
def getMIDINoteName (midiNote : Int) : String :=
  let octave := midiNote.fdiv 12 - 1
  let noteIndex := midiNote.tmod 12
  let name :=
    (if 0 ≤ noteIndex then BASE_NOTES.get? noteIndex.toNat else none).getD "C"
  name ++ toString octave

/-- `getBaseNoteName` from `midiUtils.ts`. -/
def getBaseNoteName (midiNote : Int) : String :=
  let noteIndex := midiNote.tmod 12
  (if 0 ≤ noteIndex then BASE_NOTES.get? noteIndex.toNat else none).getD "C"

/-- JS `Array.prototype.indexOf`: index of the first occurrence, `-1`
when absent. -/
def jsIndexOf (l : List String) (s : String) : Int :=
  match l.findIdx? (fun x => x == s) with
  | some i => (i : Int)
  | none => -1

/-- `calculateIntervals` from `chordDetection.ts`: chromatic positions
(JS `note % 12`) of the notes. -/
def calculateIntervals (notes : List Int) : List Int :=
  if notes.length = 0 then [] else notes.map (fun note => note.tmod 12)

/-- `normalizeIntervals` from `chordDetection.ts`: rotate so the
candidate root comes first (wrapped entries get `+12`), then offset
every entry by the first one, mod 12. -/
def normalizeIntervals (intervals : List Int) (rootIndex : Nat) : List Int :=
  let rotatedIntervals :=
    intervals.drop rootIndex ++ (intervals.take rootIndex).map (fun n => n + 12)
  match rotatedIntervals with
  | [] => []
  | firstInterval :: _ =>
    rotatedIntervals.map (fun n => (n - firstInterval + 12).tmod 12)

/-- Result object of `findChordPattern`. -/
structure ChordMatch where
  chordType : ChordType
  pattern : List Int
  rootNote : String
deriving DecidableEq, Repr

/-- JS `xs.every((x, j) => x === ys[j])`: every element of `xs` equals
the element of `ys` at the same index (`undefined` compares unequal). -/
def jsEveryIndexEq (xs ys : List Int) : Bool :=
  xs.enum.all fun p => decide (ys.get? p.1 = some p.2)

/-- The `(chordType, pattern)` pairs in the order the nested
`Object.entries(CHORD_PATTERNS)` loops of `findChordPattern` visit
them. -/
def chordPatternEntries : List (ChordType × List Int) :=
  (allChordTypes.map (fun ct => (CHORD_PATTERNS ct).map (fun p => (ct, p)))).flatten

/-- `findChordPattern` from `chordDetection.ts`: drop intervals equal
to 2 (reserved for 9ths), keep the first 3, and return the first
pattern they match; Sus4 additionally requires the second triad
interval to be 5. -/
def findChordPattern (normalizedIntervals : List Int) (rootNote : String) :
    Option ChordMatch :=
  let triadIntervals :=
    (normalizedIntervals.filter (fun interval => decide (interval ≠ 2))).take 3
  if triadIntervals.length < 3 then none
  else
    chordPatternEntries.findSome? fun entry =>
      if jsEveryIndexEq triadIntervals entry.2 then
        if entry.1 = ChordType.Sus4 then
          if triadIntervals.get? 1 = some 5 then
            some ⟨entry.1, entry.2, rootNote⟩
          else none
        else some ⟨entry.1, entry.2, rootNote⟩
      else none

/-- `determineInversion` from `chordDetection.ts`: returns
`(inversionText, lowestNoteName)`. -/
def determineInversion (lowestNote : Int) (rootNote : String) :
    String × String :=
  let lowestNoteName := getMIDINoteName lowestNote
  let lowestNoteBase := getBaseNoteName lowestNote
  let lowestNoteIndex := jsIndexOf BASE_NOTES lowestNoteBase
  let rootNoteIndex := jsIndexOf BASE_NOTES rootNote
  let inversionText :=
    if lowestNoteIndex ≠ rootNoteIndex then
      let interval := (lowestNoteIndex - rootNoteIndex + 12).tmod 12
      if interval = 4 ∨ interval = 3 then "1st"
      else if interval = 7 ∨ interval = 6 then "2nd"
      else if interval = 10 ∨ interval = 11 then "3rd"
      else "Root"
    else "Root"
  (inversionText, lowestNoteName)

/-- Result object of `checkExtendedIntervals`. -/
structure ExtendedIntervalFlags where
  hasSixth : Bool
  hasSeventh : Bool
  hasMajorSeventh : Bool
  hasNinth : Bool
deriving DecidableEq, Repr

/-- `checkExtendedIntervals` from `chordDetection.ts`. -/
def checkExtendedIntervals (intervals : List Int) : ExtendedIntervalFlags :=
  { hasSixth := intervals.contains 9
    hasSeventh := intervals.contains 10
    hasMajorSeventh := intervals.contains 11
    hasNinth := intervals.contains 2 }

/-- Helper for `jsDedup`: keep each element whose value has not been
seen before. -/
def jsDedupAux : List Int → List Int → List Int
  | [], _ => []
  | x :: xs, seen =>
    if seen.contains x then jsDedupAux xs seen
    else x :: jsDedupAux xs (x :: seen)

/-- JS `[...new Set(notes)]`: remove duplicates keeping the first
occurrence of each value, preserving order. -/
def jsDedup (notes : List Int) : List Int := jsDedupAux notes []

/-- JS `Math.min(...l)` for the nonempty lists it is applied to. -/
def jsMin (l : List Int) : Int := l.min?.getD 0

/-- `ChordInfo` from `chord.types.ts`. -/
structure ChordInfo where
  chordName : String
  inversion : String
  bassNote : String
  hasSixth : Bool
  hasSeventh : Bool
  hasMajorSeventh : Bool
  hasNinth : Bool
deriving DecidableEq, Repr

/-- The root-candidate loop of `getChordInfo`
(`for (const [i, rootIndex] of intervals.entries())`): skip candidates
whose chromatic index is out of range of `BASE_NOTES` or whose
normalization is empty, and return the first `(i, match)` produced by
`findChordPattern`. -/
def detectLoop (intervals : List Int) : Option (Nat × ChordMatch) :=
  intervals.enum.findSome? fun (p : Nat × Int) =>
    if p.2 < 0 ∨ (BASE_NOTES.length : Int) ≤ p.2 then none
    else
      match BASE_NOTES.get? p.2.toNat with
      | none => none
      | some rootNote =>
        let normalizedIntervals := normalizeIntervals intervals p.1
        if normalizedIntervals.length = 0 then none
        else (findChordPattern normalizedIntervals rootNote).map fun m => (p.1, m)

/-- The `sortedNotes.some((note, i) => ...)` 9th check of
`getChordInfo`: some note other than the first lies strictly more than
12 semitones above the lowest with that distance congruent to 2 mod
12. -/
def highNinthFlag (sortedNotes : List Int) (lowestNote : Int) : Bool :=
  sortedNotes.enum.any fun (p : Nat × Int) =>
    decide (p.1 ≠ 0) && decide (12 < p.2 - lowestNote) &&
      decide ((p.2 - lowestNote).tmod 12 = 2)

/-- The `ChordInfo` object built by the successful branch of
`getChordInfo` for deduplicated notes `uniq` and the loop's matched
index `i` and pattern `m`. -/
def buildChordInfo (uniq : List Int) (hasNinthHigh : Bool) (i : Nat)
    (m : ChordMatch) : ChordInfo :=
  let normalizedIntervals := normalizeIntervals (calculateIntervals uniq) i
  let inv := determineInversion (jsMin uniq) m.rootNote
  let flags := checkExtendedIntervals normalizedIntervals
  { chordName := m.rootNote ++ " " ++ chordTypeFullName m.chordType
    inversion := inv.1
    bassNote := inv.2
    hasSixth := flags.hasSixth
    hasSeventh := flags.hasSeventh
    hasMajorSeventh := flags.hasMajorSeventh
    hasNinth := hasNinthHigh || flags.hasNinth }

/-- `getChordInfo` from `chordDetection.ts`.  The JS numeric sort of
the deduplicated notes is modelled by `insertionSort` (the notes are
distinct, so any correct ascending sort produces the same list);
`sortedNotes[0] === undefined` is the `head? = none` branch;
`Math.min(...uniqueMidiNotes)` is `jsMin`. -/
def getChordInfo (notes : List Int) : Option ChordInfo :=
  if notes.length < 3 then none
  else
    let uniqueMidiNotes := jsDedup notes
    if uniqueMidiNotes.length < 3 then none
    else
      let sortedNotes := List.insertionSort (fun a b => a ≤ b) uniqueMidiNotes
      match sortedNotes.head? with
      | none => none
      | some lowestNote =>
        let hasNinth := highNinthFlag sortedNotes lowestNote
        let intervals := calculateIntervals uniqueMidiNotes
        if intervals.length = 0 then none
        else
          match detectLoop intervals with
          | none => none
          | some (i, m) => some (buildChordInfo uniqueMidiNotes hasNinth i m)

/-- A row of a voicing table: the `{ voicing, inversion, octave }`
record of `voicingUtils.ts`. -/
structure VoicingEntry where
  voicing : Int
  inversion : Nat
  octave : Nat
deriving DecidableEq, Repr

/-- The `intervals.forEach` body of `generateVoicings`
(`voicingUtils.ts`): push an entry for every interval landing at or
below 60; `voicingIndex` advances only when an entry is pushed.
Returns the pushed entries together with the final index. -/
def voicingInnerPass : List Int → Int → Nat → List VoicingEntry × Nat
  | [], _, voicingIndex => ([], voicingIndex)
  | interval :: rest, currentValue, voicingIndex =>
    let newValue := currentValue + interval
    if newValue ≤ 60 then
      let entry : VoicingEntry :=
        ⟨newValue, (voicingIndex + 1) % 3, (voicingIndex + 1) / 3⟩
      let step := voicingInnerPass rest currentValue (voicingIndex + 1)
      (entry :: step.1, step.2)
    else voicingInnerPass rest currentValue voicingIndex

/-- The `while (currentValue <= 60)` loop of `generateVoicings`,
with a structural fuel argument so that it computes by kernel
reduction.  Each pass raises `currentValue` by 12, so any fuel larger
than `(60 - start)/12 + 1` makes the guard, never the fuel, terminate
the loop. -/
def generateVoicingsLoop (intervals : List Int) :
    Nat → Int → Nat → List VoicingEntry
  | 0, _, _ => []
  | fuel + 1, currentValue, voicingIndex =>
    if currentValue ≤ 60 then
      let pass := voicingInnerPass intervals currentValue voicingIndex
      pass.1 ++ generateVoicingsLoop intervals fuel (currentValue + 12) pass.2
    else []

/-- `generateVoicings` from `voicingUtils.ts`: the ordered voicing
table (the record's integer keys `0, 1, ...` are the list positions).
The fuel `(60 - baseOffset).toNat / 12 + 2` strictly exceeds the
number of loop passes, so it never truncates the loop. -/
def generateVoicings (baseOffset : Int) (intervals : List Int) :
    List VoicingEntry :=
  generateVoicingsLoop intervals ((60 - baseOffset).toNat / 12 + 2) baseOffset 0

/-- `getVoicingsForNote` from `voicingUtils.ts`. -/
def getVoicingsForNote (note : String) (chordQuality : ChordType) :
    List VoicingEntry :=
  match NOTE_OFFSETS note with
  | none => []
  | some baseOffset =>
    generateVoicings baseOffset (ROOT_POSITION_INTERVALS chordQuality)

/-- `generateVoicingsForChordType` from `voicingUtils.ts`: a record
keyed by the `NOTE_OFFSETS` notes, modelled as a function; a key
absent from the record yields the empty table (the `?? {}` applied at
every access site). -/
def generateVoicingsForChordType (intervals : List Int) (note : String) :
    List VoicingEntry :=
  match NOTE_OFFSETS note with
  | none => []
  | some offset => generateVoicings offset intervals

/-- The `CHORD_DEFINITIONS` search shared by `getVoicingsForQuality`
and `getChordTypeAndIntervals`: the first quality whose `shortName`
equals the given short code. -/
def chordTypeOfShortName (quality : String) : Option ChordType :=
  allChordTypes.find? (fun ct => chordShortName ct == quality)

/-- `getVoicingsForQuality` from `voicingUtils.ts`: falls back to the
Major intervals when the short code is unknown. -/
def getVoicingsForQuality (quality : String) (note : String) :
    List VoicingEntry :=
  match chordTypeOfShortName quality with
  | none => generateVoicingsForChordType (ROOT_POSITION_INTERVALS ChordType.Major) note
  | some chordType =>
    generateVoicingsForChordType (ROOT_POSITION_INTERVALS chordType) note

/-- `validateChordInput` from `voicingUtils.ts`:
`(isValid, shouldReturnEmpty)`. -/
def validateChordInput (baseNote : String) (voicing : Option VoicingEntry)
    (quality : String) : Bool × Bool :=
  match voicing with
  | none => (false, true)
  | some _ =>
    if jsIndexOf BASE_NOTES baseNote = -1 then (false, false)
    else if (getVoicingsForQuality quality baseNote).length = 0 then (false, false)
    else (true, false)

/-- `getChordTypeAndIntervals` from `voicingUtils.ts`. -/
def getChordTypeAndIntervals (quality : String) :
    Option ChordType × List Int :=
  match chordTypeOfShortName quality with
  | none => (none, [])
  | some chordType => (some chordType, ROOT_POSITION_INTERVALS chordType)

/-- `calculateOctaveAdjustment` from `voicingUtils.ts`. -/
def calculateOctaveAdjustment (noteIndex baseIndex : Int) : Nat :=
  if noteIndex < baseIndex then 1 else 0

/-- JS `BASE_NOTES[i]` for a possibly negative computed index. -/
def jsBaseNoteAt (i : Int) : Option String :=
  if 0 ≤ i then BASE_NOTES.get? i.toNat else none

/-- `generateChordNotes` from `voicingUtils.ts`: the three
`"<Name><octave>"` strings for the given inversion pattern. -/
def generateChordNotes (baseNoteIndex : Int) (intervals : List Int)
    (pattern : Nat) (baseOctave : Nat) : List String :=
  if intervals.length < 3 then []
  else
    match intervals.get? 1, intervals.get? 2 with
    | some secondInterval, some thirdInterval =>
      let thirdIdx := (baseNoteIndex + secondInterval).tmod 12
      let fifthIdx := (baseNoteIndex + thirdInterval).tmod 12
      match jsBaseNoteAt thirdIdx, jsBaseNoteAt fifthIdx, jsBaseNoteAt baseNoteIndex with
      | some third, some fifth, some root =>
        let thirdOctaveAdjustment := calculateOctaveAdjustment thirdIdx baseNoteIndex
        let fifthOctaveAdjustment := calculateOctaveAdjustment fifthIdx baseNoteIndex
        if pattern = 0 then
          [root ++ toString baseOctave,
           third ++ toString (baseOctave + thirdOctaveAdjustment),
           fifth ++ toString (baseOctave + fifthOctaveAdjustment)]
        else if pattern = 1 then
          [third ++ toString (baseOctave + thirdOctaveAdjustment),
           fifth ++ toString (baseOctave + fifthOctaveAdjustment),
           root ++ toString (baseOctave + 1)]
        else if pattern = 2 then
          [fifth ++ toString (baseOctave + fifthOctaveAdjustment),
           root ++ toString (baseOctave + 1),
           third ++ toString (baseOctave + thirdOctaveAdjustment + 1)]
        else []
      | _, _, _ => []
    | _, _ => []

/-- `getChordNotes` from `voicingUtils.ts`. -/
def getChordNotes (baseNote : String) (voicing : Option VoicingEntry)
    (quality : String) : String :=
  let validation := validateChordInput baseNote voicing quality
  if validation.1 = false then (if validation.2 then "" else "-")
  else
    match voicing with
    | none => "-"
    | some v =>
      let baseNoteIndex := jsIndexOf BASE_NOTES baseNote
      let voicings := getVoicingsForQuality quality baseNote
      match voicings.findIdx? (fun w => decide (w.voicing = v.voicing)) with
      | none => "-"
      | some voicingIndex =>
        let pattern := (voicingIndex + 1) % 3
        let intervals := (getChordTypeAndIntervals quality).2
        if intervals.length = 0 then "-"
        else
          let notes := generateChordNotes baseNoteIndex intervals pattern v.octave
          if notes.length ≠ 0 then String.intercalate " " notes else "-"

/-- Parsed MIDI message record, `MIDIMessage` of `chord.types.ts`. -/
structure MIDIMessage where
  timestamp : Int
  channel : Nat
  type : String
  noteNumber : Option Nat
  noteName : Option String
  velocity : Option Nat
  controlNumber : Option Nat
  controlValue : Option Nat
  programNumber : Option Nat
  rawData : List Nat
deriving DecidableEq, Repr

/-- `parseMIDIMessage` from `midiUtils.ts`.  Bytes are naturals;
`statusByte >> 4` is `/ 16` and `statusByte & 0x0f` is `% 16`
(equal on all naturals).  The `data[1]!`/`data[2]!` accesses follow a
length check, so their `none` branches are unreachable. -/
def parseMIDIMessage (data : List Nat) (timestamp : Int) : Option MIDIMessage :=
  if data.length < 1 then none
  else
    match data.get? 0 with
    | none => none
    | some statusByte =>
      let messageType := statusByte / 16
      let channel := statusByte % 16 + 1
      if messageType = 9 then
        if data.length < 3 then none
        else
          match data.get? 1, data.get? 2 with
          | some noteNumberByte, some velocityByte =>
            some { timestamp := timestamp, channel := channel
                   type := if velocityByte > 0 then "note-on" else "note-off"
                   noteNumber := some noteNumberByte
                   noteName := some (getMIDINoteName (noteNumberByte : Int))
                   velocity := some velocityByte
                   controlNumber := none, controlValue := none
                   programNumber := none, rawData := data }
          | _, _ => none
      else if messageType = 8 then
        if data.length < 3 then none
        else
          match data.get? 1, data.get? 2 with
          | some noteNumberByte, some velocityByte =>
            some { timestamp := timestamp, channel := channel
                   type := "note-off"
                   noteNumber := some noteNumberByte
                   noteName := some (getMIDINoteName (noteNumberByte : Int))
                   velocity := some velocityByte
                   controlNumber := none, controlValue := none
                   programNumber := none, rawData := data }
          | _, _ => none
      else if messageType = 11 then
        if data.length < 3 then none
        else
          match data.get? 1, data.get? 2 with
          | some controlNumberByte, some controlValueByte =>
            some { timestamp := timestamp, channel := channel
                   type := "control-change"
                   noteNumber := none, noteName := none, velocity := none
                   controlNumber := some controlNumberByte
                   controlValue := some controlValueByte
                   programNumber := none, rawData := data }
          | _, _ => none
      else if messageType = 12 then
        if data.length < 2 then none
        else
          match data.get? 1 with
          | some programNumberByte =>
            some { timestamp := timestamp, channel := channel
                   type := "program-change"
                   noteNumber := none, noteName := none, velocity := none
                   controlNumber := none, controlValue := none
                   programNumber := some programNumberByte, rawData := data }
          | none => none
      else
        some { timestamp := timestamp, channel := channel
               type := "unknown"
               noteNumber := none, noteName := none, velocity := none
               controlNumber := none, controlValue := none
               programNumber := none, rawData := data }

/-- The natural notes, `wholeNotes` of `voicingUtils.ts` (the keys of
`NOTE_OFFSETS`). -/
def wholeNotes : List String := ["C", "D", "E", "F", "G", "A", "B"]

/-- Specification vocabulary: the names of the three pitch classes
obtained by transposing a quality's root-position intervals to a
base note. -/
def transposedPitchClassNames (note : String) (q : ChordType) : List String :=
  (ROOT_POSITION_INTERVALS q).map (fun iv =>
    (jsBaseNoteAt ((jsIndexOf BASE_NOTES note + iv).tmod 12)).getD "")

/-- The token list that `getChordNotes` joins with spaces for a table
entry `e` of quality `q` rooted at `note` (the value of its
`generateChordNotes` call). -/
def chordNoteTokens (note : String) (e : VoicingEntry) (q : ChordType) :
    List String :=
  match (getVoicingsForQuality (chordShortName q) note).findIdx?
      (fun w => decide (w.voicing = e.voicing)) with
  | none => []
  | some idx =>
    generateChordNotes (jsIndexOf BASE_NOTES note) (ROOT_POSITION_INTERVALS q)
      ((idx + 1) % 3) e.octave

instance : Std.Antisymm ((· : Int) ≤ ·) :=
  ⟨@fun _ _ h1 h2 => le_antisymm h1 h2⟩

lemma jsDedupAux_length_le : ∀ (l seen : List Int), (jsDedupAux l seen).length ≤ l.length := by
  intro l
  induction l with
  | nil => intro seen; simp [jsDedupAux]
  | cons x xs ih =>
    intro seen
    simp only [jsDedupAux]
    split
    · exact Nat.le_succ_of_le (ih seen)
    · simpa using Nat.succ_le_succ (ih (x :: seen))

lemma jsDedup_length_le (l : List Int) : (jsDedup l).length ≤ l.length :=
  jsDedupAux_length_le l []

lemma jsDedupAux_mem : ∀ (l seen : List Int) (x : Int),
    x ∈ jsDedupAux l seen ↔ x ∈ l ∧ x ∉ seen := by
  intro l
  induction l with
  | nil => intro seen x; simp [jsDedupAux]
  | cons y ys ih =>
    intro seen x
    simp only [jsDedupAux]
    by_cases hy : y ∈ seen
    · rw [if_pos (List.elem_iff.mpr hy), ih]
      constructor
      · rintro ⟨h1, h2⟩
        exact ⟨List.mem_cons_of_mem _ h1, h2⟩
      · rintro ⟨h1, h2⟩
        rcases List.mem_cons.mp h1 with h | h
        · subst h; exact absurd hy h2
        · exact ⟨h, h2⟩
    · rw [if_neg (fun hc => hy (List.elem_iff.mp hc))]
      constructor
      · intro h
        rcases List.mem_cons.mp h with h | h
        · subst h; exact ⟨List.mem_cons_self _ _, hy⟩
        · rcases (ih (y :: seen) x).mp h with ⟨h1, h2⟩
          rw [List.mem_cons, not_or] at h2
          exact ⟨List.mem_cons_of_mem _ h1, h2.2⟩
      · rintro ⟨h1, h2⟩
        rcases List.mem_cons.mp h1 with h | h
        · subst h; exact List.mem_cons_self _ _
        · by_cases hx : x = y
          · subst hx; exact List.mem_cons_self _ _
          · apply List.mem_cons_of_mem
            apply (ih (y :: seen) x).mpr
            exact ⟨h, by rw [List.mem_cons, not_or]; exact ⟨hx, h2⟩⟩

lemma jsDedup_mem (l : List Int) (x : Int) : x ∈ jsDedup l ↔ x ∈ l := by
  rw [jsDedup, jsDedupAux_mem]; simp

/-- C4: the inversion derivation returns exactly the three rotation
patterns for a length-3 root-position list, in order, and fails
(throws, modelled as `none`) on every list of any other length. -/
theorem c4_generateInversions :
    (∀ root second third : Int,
      generateInversions [root, second, third] =
        some [[root, second, third],
              [second, third, root + 12],
              [third, root + 12, second + 12]]) ∧
    (∀ l : List Int, l.length ≠ 3 → generateInversions l = none) := by
  constructor
  · intro root second third; rfl
  · intro l h
    match l with
    | [] => rfl
    | [a] => rfl
    | [a, b] => rfl
    | [a, b, c] => exact absurd rfl h
    | a :: b :: c :: d :: rest => rfl

theorem c4_generateInversions_witness :
    generateInversions [0, 4, 7] = some [[0, 4, 7], [4, 7, 12], [7, 12, 16]] ∧
    ([0, 4] : List Int).length ≠ 3 ∧ generateInversions [0, 4] = none :=
  ⟨c4_generateInversions.1 0 4 7, by decide,
    c4_generateInversions.2 [0, 4] (by decide)⟩

/-- C9 counterexample: at input `-1` the code returns `"C-2"` (the JS
remainder `-1 % 12 = -1` makes the array lookup miss and fall back to
`"C"`), not the `"B-2"` demanded by the mathematical-modulus
formula. -/
theorem c9_counterexample :
    getMIDINoteName (-1) = "C-2" ∧
    getMIDINoteName (-1) ≠
      (BASE_NOTES.get? (((-1 : Int) % 12)).toNat).getD "C" ++
        toString ((-1 : Int).fdiv 12 - 1) := by
  constructor
  · rfl
  · decide

/-- C9 (amended): for nonnegative `n` the note name is the pitch class
at mathematical index `n % 12` followed by octave `floor(n/12) - 1`;
for negative `n` the pitch class falls back to `"C"` (the JS remainder
is negative so the array access is undefined), with the same octave
formula. -/
theorem c9_noteName_formula (n : Int) :
    getMIDINoteName n =
      (if 0 ≤ n then (BASE_NOTES.get? (n % 12).toNat).getD "C" else "C") ++
        toString (n.fdiv 12 - 1) := by
  rcases n with m | m
  · have h0 : (0 : Int) ≤ Int.ofNat m := Int.ofNat_nonneg m
    have h1 : (0 : Int) ≤ (Int.ofNat m) % 12 := Int.emod_nonneg _ (by norm_num)
    simp only [getMIDINoteName,
      Int.tmod_eq_emod h0 (by norm_num : (0 : Int) ≤ 12)]
    rw [if_pos h0, if_pos h1]
  · have hneg : ¬ (0 : Int) ≤ Int.negSucc m := by
      have := Int.negSucc_lt_zero m
      omega
    have htm : (Int.negSucc m).tmod 12 = -(((m + 1) % 12 : Nat) : Int) := rfl
    simp only [getMIDINoteName, htm]
    rw [if_neg hneg]
    by_cases hz : (m + 1) % 12 = 0
    · simp [hz, BASE_NOTES]
    · rw [if_neg (by omega : ¬ (0 : Int) ≤ -(((m + 1) % 12 : Nat) : Int))]
      simp

/-- C3: for every natural note and every quality, the generated
voicing table has all values ≤ 60, strictly increasing values,
entries three indices apart differing by exactly 12, and entry `i`
carrying inversion `(i+1) % 3` and octave `(i+1) / 3`. -/
theorem c3_voicing_table_invariants :
    ∀ note ∈ wholeNotes, ∀ q ∈ allChordTypes,
      (∀ e ∈ getVoicingsForNote note q, e.voicing ≤ 60) ∧
      List.Pairwise (fun a b => a.voicing < b.voicing) (getVoicingsForNote note q) ∧
      (∀ p ∈ (getVoicingsForNote note q).zip ((getVoicingsForNote note q).drop 3),
        p.2.voicing = p.1.voicing + 12) ∧
      (∀ p ∈ (getVoicingsForNote note q).enum,
        p.2.inversion = (p.1 + 1) % 3 ∧ p.2.octave = (p.1 + 1) / 3) := by
  decide

theorem c3_voicing_table_invariants_witness :
    ("C" ∈ wholeNotes ∧ ChordType.Major ∈ allChordTypes) ∧
    ((∀ e ∈ getVoicingsForNote "C" ChordType.Major, e.voicing ≤ 60) ∧
      List.Pairwise (fun a b => a.voicing < b.voicing)
        (getVoicingsForNote "C" ChordType.Major) ∧
      (∀ p ∈ (getVoicingsForNote "C" ChordType.Major).zip
          ((getVoicingsForNote "C" ChordType.Major).drop 3),
        p.2.voicing = p.1.voicing + 12) ∧
      (∀ p ∈ (getVoicingsForNote "C" ChordType.Major).enum,
        p.2.inversion = (p.1 + 1) % 3 ∧ p.2.octave = (p.1 + 1) / 3)) :=
  ⟨⟨by decide, by decide⟩,
    c3_voicing_table_invariants "C" (by decide) ChordType.Major (by decide)⟩

lemma chordName_projection (notes : List Int) :
    (getChordInfo notes).map ChordInfo.chordName =
      if (jsDedup notes).length < 3 then none
      else
        (detectLoop (calculateIntervals (jsDedup notes))).map
          (fun p => p.2.rootNote ++ " " ++ chordTypeFullName p.2.chordType) := by
  simp only [getChordInfo]
  by_cases h1 : notes.length < 3
  · rw [if_pos h1, if_pos (lt_of_le_of_lt (jsDedup_length_le notes) h1)]
    simp
  · rw [if_neg h1]
    by_cases h2 : (jsDedup notes).length < 3
    · simp [h2]
    · rw [if_neg h2, if_neg h2]
      have hlen : (List.insertionSort (fun a b => a ≤ b) (jsDedup notes)).length =
          (jsDedup notes).length := List.length_insertionSort _ _
      have hne : List.insertionSort (fun a b => a ≤ b) (jsDedup notes) ≠ [] := by
        intro hnil
        have h0 : (jsDedup notes).length = 0 := by
          rw [← hlen, hnil]
          rfl
        omega
      obtain ⟨lo, rest, hs⟩ := List.exists_cons_of_ne_nil hne
      rw [hs]
      simp only [List.head?]
      have hi : ¬ (calculateIntervals (jsDedup notes)).length = 0 := by
        simp only [calculateIntervals]
        rw [if_neg (by omega : ¬ (jsDedup notes).length = 0)]
        simp only [List.length_map]
        omega
      rw [if_neg hi]
      cases hd : detectLoop (calculateIntervals (jsDedup notes)) with
      | none => simp
      | some pm =>
        cases pm with
        | mk i m => simp [buildChordInfo]

/-- C1 counterexample: `[64, 67, 72]` and `[64, 67, 72, 79]` both hold
at least 3 distinct notes and have the same sequence of distinct pitch
classes in order of first appearance (4, 7, 0), yet the first is
identified as "C Major" and the second as no chord at all — appending
the duplicate-pitch-class note G5 changes the chord identity. -/
theorem c1_counterexample :
    3 ≤ (jsDedup [64, 67, 72]).length ∧
    3 ≤ (jsDedup [(64 : Int), 67, 72, 79]).length ∧
    jsDedup (([64, 67, 72] : List Int).map (fun n => n.tmod 12)) =
      jsDedup (([64, 67, 72, 79] : List Int).map (fun n => n.tmod 12)) ∧
    (getChordInfo [64, 67, 72]).map ChordInfo.chordName = some "C Major" ∧
    (getChordInfo [64, 67, 72, 79]).map ChordInfo.chordName = none := by
  refine ⟨by decide, by decide, by decide, by decide, by decide⟩

/-- C1 (amended): the chord identity depends only on the sequence of
pitch classes of the *deduplicated MIDI notes, with multiplicity, in
order*: two inputs whose deduplicated notes project to the same
pitch-class sequence get the same chordName (or both none).  Equality
of the sequences of *distinct* pitch classes is not sufficient, and
appending a note duplicating an already-present pitch class can change
the result. -/
theorem c1_chordName_pc_sequence (notes1 notes2 : List Int)
    (h3 : 3 ≤ (jsDedup notes1).length)
    (hpc : (jsDedup notes1).map (fun n => n.tmod 12) =
      (jsDedup notes2).map (fun n => n.tmod 12)) :
    (getChordInfo notes1).map ChordInfo.chordName =
      (getChordInfo notes2).map ChordInfo.chordName := by
  have hlen : (jsDedup notes1).length = (jsDedup notes2).length := by
    have h := congrArg List.length hpc
    simpa using h
  rw [chordName_projection, chordName_projection]
  have hci : calculateIntervals (jsDedup notes1) =
      calculateIntervals (jsDedup notes2) := by
    simp only [calculateIntervals]
    rw [if_neg (by omega : ¬ (jsDedup notes1).length = 0),
      if_neg (by omega : ¬ (jsDedup notes2).length = 0)]
    exact hpc
  rw [hci, hlen]

theorem c1_chordName_pc_sequence_witness :
    3 ≤ (jsDedup [(60 : Int), 64, 67]).length ∧
    jsDedup (([60, 64, 67] : List Int).map (fun n => n.tmod 12)) =
      jsDedup (([48, 52, 55] : List Int).map (fun n => n.tmod 12)) ∧
    (getChordInfo [60, 64, 67]).map ChordInfo.chordName =
      (getChordInfo [48, 52, 55]).map ChordInfo.chordName :=
  ⟨by decide, by decide,
    c1_chordName_pc_sequence [60, 64, 67] [48, 52, 55] (by decide) (by decide)⟩

lemma matcherResult {triad : List Int} {r : String} {ct : ChordType}
    {p : List Int} {m : ChordMatch}
    (hf : (if jsEveryIndexEq triad p then
        (if ct = ChordType.Sus4 then
          (if triad.get? 1 = some 5 then some (⟨ct, p, r⟩ : ChordMatch) else none)
        else some (⟨ct, p, r⟩ : ChordMatch))
      else none) = some m) :
    m = ⟨ct, p, r⟩ ∧ jsEveryIndexEq triad p = true := by
  by_cases h1 : jsEveryIndexEq triad p
  · rw [if_pos h1] at hf
    refine ⟨?_, h1⟩
    by_cases h2 : ct = ChordType.Sus4
    · rw [if_pos h2] at hf
      by_cases h3 : triad.get? 1 = some 5
      · rw [if_pos h3] at hf
        exact (Option.some.inj hf).symm
      · rw [if_neg h3] at hf
        cases hf
    · rw [if_neg h2] at hf
      exact (Option.some.inj hf).symm
  · rw [if_neg h1] at hf
    cases hf

lemma findChordPattern_some {norm : List Int} {r : String} {m : ChordMatch}
    (h : findChordPattern norm r = some m) :
    ∃ entry ∈ chordPatternEntries,
      m = ⟨entry.1, entry.2, r⟩ ∧
      jsEveryIndexEq ((norm.filter (fun x => decide (x ≠ 2))).take 3) entry.2 = true ∧
      ¬ ((norm.filter (fun x => decide (x ≠ 2))).take 3).length < 3 := by
  simp only [findChordPattern] at h
  by_cases hlt : ((norm.filter (fun x => decide (x ≠ 2))).take 3).length < 3
  · rw [if_pos hlt] at h
    cases h
  · rw [if_neg hlt] at h
    obtain ⟨entry, hmem, hf⟩ := List.exists_of_findSome?_eq_some h
    obtain ⟨hm, he⟩ := matcherResult hf
    exact ⟨entry, hmem, hm, he, hlt⟩

lemma normalizeIntervals_bounds (intervals : List Int)
    (hb : ∀ x ∈ intervals, 0 ≤ x ∧ x ≤ 11) (i : Nat) :
    ∀ x ∈ normalizeIntervals intervals i, 0 ≤ x ∧ x ≤ 11 := by
  intro x hx
  simp only [normalizeIntervals] at hx
  rcases hrot : intervals.drop i ++ (intervals.take i).map (fun n => n + 12)
    with _ | ⟨f, rest⟩
  · rw [hrot] at hx
    cases hx
  · rw [hrot] at hx
    obtain ⟨n, hn, rfl⟩ := List.mem_map.mp hx
    have hmem_rot : ∀ y ∈ intervals.drop i ++ (intervals.take i).map (fun n => n + 12),
        (0 ≤ y ∧ y ≤ 11) ∨ (12 ≤ y ∧ y ≤ 23) := by
      intro y hy
      rcases List.mem_append.mp hy with hy | hy
      · exact Or.inl (hb y (List.mem_of_mem_drop hy))
      · obtain ⟨z, hz, rfl⟩ := List.mem_map.mp hy
        have hz2 := hb z (List.mem_of_mem_take hz)
        exact Or.inr ⟨by omega, by omega⟩
    have hn2 := hmem_rot n (by rw [hrot]; exact hn)
    have harg : 1 ≤ n - f + 12 := by
      rcases hd : intervals.drop i with _ | ⟨d0, drest⟩
      · have hfm : f ∈ (intervals.take i).map (fun n => n + 12) := by
          have hf0 : f ∈ intervals.drop i ++ (intervals.take i).map (fun n => n + 12) := by
            rw [hrot]
            exact List.mem_cons_self _ _
          rcases List.mem_append.mp hf0 with h | h
          · rw [hd] at h
            cases h
          · exact h
        have hnm : n ∈ (intervals.take i).map (fun n => n + 12) := by
          have hn0 : n ∈ intervals.drop i ++ (intervals.take i).map (fun n => n + 12) := by
            rw [hrot]
            exact hn
          rcases List.mem_append.mp hn0 with h | h
          · rw [hd] at h
            cases h
          · exact h
        obtain ⟨z, hz, hfz⟩ := List.mem_map.mp hfm
        obtain ⟨w, hw, hnw⟩ := List.mem_map.mp hnm
        have hz2 := hb z (List.mem_of_mem_take hz)
        have hw2 := hb w (List.mem_of_mem_take hw)
        omega
      · have hfd : f = d0 := by
          rw [hd, List.cons_append] at hrot
          exact (List.cons.inj hrot).1.symm
        have hf2 := hb d0 (List.mem_of_mem_drop (by rw [hd]; exact List.mem_cons_self _ _))
        rcases hn2 with h | h <;> omega
    refine ⟨Int.tmod_nonneg _ (by omega), ?_⟩
    have hlt := Int.tmod_lt_of_pos (n - f + 12) (by norm_num : (0 : Int) < 12)
    omega

/-- C10: on interval lists whose elements lie in 0–11 (which is what
`normalizeIntervals` produces from 0–11 chromatic inputs, second
conjunct), a successful `findChordPattern` match always carries the
matched quality's root-position pattern, whose first element is 0;
the inversion patterns, each containing a value ≥ 12, never match. -/
theorem c10_root_position_only :
    (∀ (normalizedIntervals : List Int),
      (∀ x ∈ normalizedIntervals, 0 ≤ x ∧ x ≤ 11) →
      ∀ (rootNote : String) (m : ChordMatch),
        findChordPattern normalizedIntervals rootNote = some m →
        m.pattern = ROOT_POSITION_INTERVALS m.chordType ∧
          m.pattern.head? = some 0) ∧
    (∀ (intervals : List Int),
      (∀ x ∈ intervals, 0 ≤ x ∧ x ≤ 11) →
      ∀ (i : Nat), ∀ x ∈ normalizeIntervals intervals i, 0 ≤ x ∧ x ≤ 11) := by
  constructor
  · intro norm hb r m h
    obtain ⟨entry, hmem, hm, he, hlen⟩ := findChordPattern_some h
    have htb : ∀ x ∈ (norm.filter (fun x => decide (x ≠ 2))).take 3, 0 ≤ x ∧ x ≤ 11 := by
      intro x hx
      exact hb x (List.mem_of_mem_filter (List.mem_of_mem_take hx))
    have htlen : ((norm.filter (fun x => decide (x ≠ 2))).take 3).length = 3 := by
      have hle : ((norm.filter (fun x => decide (x ≠ 2))).take 3).length ≤ 3 :=
        List.length_take_le _ _
      omega
    obtain ⟨a, b, c, habc⟩ :
        ∃ a b c, (norm.filter (fun x => decide (x ≠ 2))).take 3 = [a, b, c] := by
      match hq : (norm.filter (fun x => decide (x ≠ 2))).take 3, htlen with
      | [a, b, c], _ => exact ⟨a, b, c, rfl⟩
    rw [habc] at he
    have hta := htb a (by rw [habc]; exact List.mem_cons_self _ _)
    have htb2 := htb b (by rw [habc]; simp)
    have htc := htb c (by rw [habc]; simp)
    have hentries : chordPatternEntries =
        [(ChordType.Major, [0, 4, 7]), (ChordType.Major, [4, 7, 12]),
         (ChordType.Major, [7, 12, 16]),
         (ChordType.Minor, [0, 3, 7]), (ChordType.Minor, [3, 7, 12]),
         (ChordType.Minor, [7, 12, 15]),
         (ChordType.Diminished, [0, 3, 6]), (ChordType.Diminished, [3, 6, 12]),
         (ChordType.Diminished, [6, 12, 15]),
         (ChordType.Sus4, [0, 5, 7]), (ChordType.Sus4, [5, 7, 12]),
         (ChordType.Sus4, [7, 12, 17])] := by rfl
    rw [hentries] at hmem
    simp only [List.mem_cons, List.not_mem_nil, or_false] at hmem
    rcases hmem with rfl | rfl | rfl | rfl | rfl | rfl | rfl | rfl | rfl | rfl | rfl | rfl <;>
      simp only [jsEveryIndexEq, List.enum, List.enumFrom, List.all_cons, List.all_nil,
        Bool.and_eq_true, decide_eq_true_eq, List.get?, Option.some.injEq, and_true] at he <;>
      first
        | (rw [hm]; exact ⟨rfl, rfl⟩)
        | (exfalso; omega)
  · exact normalizeIntervals_bounds

theorem c10_root_position_only_witness :
    (∀ x ∈ ([0, 4, 7] : List Int), 0 ≤ x ∧ x ≤ 11) ∧
    findChordPattern [0, 4, 7] "C" =
      some ⟨ChordType.Major, [0, 4, 7], "C"⟩ ∧
    ((⟨ChordType.Major, [0, 4, 7], "C"⟩ : ChordMatch).pattern =
        ROOT_POSITION_INTERVALS
          (⟨ChordType.Major, [0, 4, 7], "C"⟩ : ChordMatch).chordType ∧
      (⟨ChordType.Major, [0, 4, 7], "C"⟩ : ChordMatch).pattern.head? = some 0) :=
  ⟨by decide, by decide,
    c10_root_position_only.1 [0, 4, 7] (by decide) "C"
      ⟨ChordType.Major, [0, 4, 7], "C"⟩ (by decide)⟩

/-- C7: the detector (total by construction — the JS never throws) is
`none` exactly when fewer than 3 distinct MIDI notes remain after
deduplication or no candidate root produces a pattern match; in
particular `[60, 60]` yields `none`. -/
theorem c7_null_conditions :
    (∀ notes : List Int,
      getChordInfo notes = none ↔
        ((jsDedup notes).length < 3 ∨
          detectLoop (calculateIntervals (jsDedup notes)) = none)) ∧
    getChordInfo [60, 60] = none := by
  constructor
  · intro notes
    have hiff : getChordInfo notes = none ↔
        (getChordInfo notes).map ChordInfo.chordName = none :=
      (Option.map_eq_none').symm
    rw [hiff, chordName_projection]
    by_cases h2 : (jsDedup notes).length < 3
    · simp [h2]
    · simp [h2, Option.map_eq_none']
  · decide

set_option linter.unnecessarySeqFocus false in
/-- C8: the parser returns `none` exactly when the byte sequence is
empty or the recognized status type lacks its data bytes (note-on,
note-off, control-change need 3 bytes, program-change 2); every parsed
message's channel is `(status & 0x0F) + 1`, in 1–16; and a status of
high nibble 9 with velocity byte 0 parses as `"note-off"`. -/
theorem c8_parseMIDIMessage_spec (data : List Nat) (ts : Int)
    (hB : ∀ b ∈ data, b < 256) :
    (parseMIDIMessage data ts = none ↔
      data = [] ∨
      (∃ status, data.head? = some status ∧
        (((status / 16 = 9 ∨ status / 16 = 8 ∨ status / 16 = 11) ∧
            data.length < 3) ∨
          (status / 16 = 12 ∧ data.length < 2)))) ∧
    (∀ msg, parseMIDIMessage data ts = some msg →
      ∃ status, data.head? = some status ∧
        msg.channel = status % 16 + 1 ∧ 1 ≤ msg.channel ∧ msg.channel ≤ 16) ∧
    (∀ status, data.head? = some status → status / 16 = 9 →
      3 ≤ data.length → data.get? 2 = some 0 →
      (parseMIDIMessage data ts).map MIDIMessage.type = some "note-off") := by
  rcases data with _ | ⟨s, _ | ⟨b1, _ | ⟨b2, d3⟩⟩⟩
  · refine ⟨by simp [parseMIDIMessage], ?_, ?_⟩
    · intro msg h
      simp [parseMIDIMessage] at h
    · intro status hst
      simp at hst
  · refine ⟨?_, ?_, ?_⟩
    · by_cases h9 : s / 16 = 9 <;> by_cases h8 : s / 16 = 8 <;>
        by_cases h11 : s / 16 = 11 <;> by_cases h12 : s / 16 = 12 <;>
        simp [parseMIDIMessage, h9, h8, h11, h12]
    · intro msg h
      refine ⟨s, rfl, ?_⟩
      have hm : s % 16 < 16 := Nat.mod_lt _ (by norm_num)
      by_cases h9 : s / 16 = 9 <;> by_cases h8 : s / 16 = 8 <;>
        by_cases h11 : s / 16 = 11 <;> by_cases h12 : s / 16 = 12 <;>
        simp [parseMIDIMessage, h9, h8, h11, h12] at h <;>
        (rw [← h]; refine ⟨rfl, ?_, ?_⟩ <;> simp <;> omega)
    · intro status hst h9 hlen hget
      simp at hlen
  · refine ⟨?_, ?_, ?_⟩
    · by_cases h9 : s / 16 = 9 <;> by_cases h8 : s / 16 = 8 <;>
        by_cases h11 : s / 16 = 11 <;> by_cases h12 : s / 16 = 12 <;>
        simp [parseMIDIMessage, h9, h8, h11, h12]
    · intro msg h
      refine ⟨s, rfl, ?_⟩
      have hm : s % 16 < 16 := Nat.mod_lt _ (by norm_num)
      by_cases h9 : s / 16 = 9 <;> by_cases h8 : s / 16 = 8 <;>
        by_cases h11 : s / 16 = 11 <;> by_cases h12 : s / 16 = 12 <;>
        simp [parseMIDIMessage, h9, h8, h11, h12] at h <;>
        (rw [← h]; refine ⟨rfl, ?_, ?_⟩ <;> simp <;> omega)
    · intro status hst h9 hlen hget
      simp at hlen
  · refine ⟨?_, ?_, ?_⟩
    · by_cases h9 : s / 16 = 9 <;> by_cases h8 : s / 16 = 8 <;>
        by_cases h11 : s / 16 = 11 <;> by_cases h12 : s / 16 = 12 <;>
        simp [parseMIDIMessage, h9, h8, h11, h12]
    · intro msg h
      refine ⟨s, rfl, ?_⟩
      have hm : s % 16 < 16 := Nat.mod_lt _ (by norm_num)
      by_cases h9 : s / 16 = 9 <;> by_cases h8 : s / 16 = 8 <;>
        by_cases h11 : s / 16 = 11 <;> by_cases h12 : s / 16 = 12 <;>
        simp [parseMIDIMessage, h9, h8, h11, h12] at h <;>
        (rw [← h]; refine ⟨rfl, ?_, ?_⟩ <;> simp <;> omega)
    · intro status hst h9 hlen hget
      have hs : status = s := by simpa using hst.symm
      subst hs
      have hb2 : b2 = 0 := by simpa using hget
      subst hb2
      simp [parseMIDIMessage, h9]

theorem c8_parseMIDIMessage_spec_witness :
    (∀ b ∈ ([0x90, 60, 0] : List Nat), b < 256) ∧
    (parseMIDIMessage [0x90, 60, 0] 0 = none ↔
      ([0x90, 60, 0] : List Nat) = [] ∨
      (∃ status, ([0x90, 60, 0] : List Nat).head? = some status ∧
        (((status / 16 = 9 ∨ status / 16 = 8 ∨ status / 16 = 11) ∧
            ([0x90, 60, 0] : List Nat).length < 3) ∨
          (status / 16 = 12 ∧ ([0x90, 60, 0] : List Nat).length < 2)))) ∧
    (parseMIDIMessage [0x90, 60, 0] 0).map MIDIMessage.type = some "note-off" :=
  ⟨by decide,
    (c8_parseMIDIMessage_spec [0x90, 60, 0] 0 (by decide)).1,
    (c8_parseMIDIMessage_spec [0x90, 60, 0] 0 (by decide)).2.2 0x90 rfl
      (by decide) (by decide) (by decide)⟩

lemma enumFromAny_shift (rest : List Int) (lo : Int) :
    ∀ k, k ≠ 0 →
      ((List.enumFrom k rest).any fun p =>
        decide (p.1 ≠ 0) && decide (12 < p.2 - lo) &&
          decide ((p.2 - lo).tmod 12 = 2)) =
      (rest.any fun note =>
        decide (12 < note - lo) && decide ((note - lo).tmod 12 = 2)) := by
  induction rest with
  | nil => intro k hk; rfl
  | cons y ys ih =>
    intro k hk
    simp only [List.enumFrom, List.any_cons]
    rw [ih (k + 1) (by omega)]
    congr 1
    simp [hk]

lemma highNinthFlag_cons (lo : Int) (rest : List Int) :
    highNinthFlag (lo :: rest) lo =
      rest.any fun note =>
        decide (12 < note - lo) && decide ((note - lo).tmod 12 = 2) := by
  simp only [highNinthFlag, List.enum, List.enumFrom, List.any_cons]
  rw [enumFromAny_shift rest lo 1 (by omega)]
  simp

lemma sorted_head_facts {l : List Int} {lo : Int} {rest : List Int}
    (hs : List.insertionSort (fun a b => a ≤ b) l = lo :: rest) :
    jsMin l = lo ∧ (∀ x, x ∈ l ↔ x = lo ∨ x ∈ rest) ∧ (∀ x ∈ rest, lo ≤ x) := by
  have hperm : (lo :: rest).Perm l :=
    hs ▸ List.perm_insertionSort (fun a b => a ≤ b) l
  have hsorted : List.Sorted (fun a b => a ≤ b) (lo :: rest) := by
    rw [← hs]
    exact List.sorted_insertionSort _ _
  have hlorest : ∀ x ∈ rest, lo ≤ x := (List.sorted_cons.mp hsorted).1
  have hmem : ∀ x, x ∈ l ↔ x = lo ∨ x ∈ rest := by
    intro x
    rw [← hperm.mem_iff]
    simp
  refine ⟨?_, hmem, hlorest⟩
  have hmin : l.min? = some lo := by
    rw [List.min?_eq_some_iff (fun a => le_refl a) (fun a b => min_choice a b)
      (fun a b c => le_min_iff)]
    constructor
    · exact (hmem lo).mpr (Or.inl rfl)
    · intro b hb
      rcases (hmem b).mp hb with rfl | hb2
      · exact le_refl _
      · exact hlorest b hb2
  simp [jsMin, hmin]

lemma getChordInfo_some_elim {notes : List Int} {info : ChordInfo}
    (h : getChordInfo notes = some info) :
    3 ≤ (jsDedup notes).length ∧
    ∃ i m, detectLoop (calculateIntervals (jsDedup notes)) = some (i, m) ∧
      ∃ lo rest, List.insertionSort (fun a b => a ≤ b) (jsDedup notes) = lo :: rest ∧
        info = buildChordInfo (jsDedup notes)
          (highNinthFlag (lo :: rest) lo) i m := by
  simp only [getChordInfo] at h
  by_cases h1 : notes.length < 3
  · rw [if_pos h1] at h
    cases h
  · rw [if_neg h1] at h
    by_cases h2 : (jsDedup notes).length < 3
    · rw [if_pos h2] at h
      cases h
    · rw [if_neg h2] at h
      rcases hs : List.insertionSort (fun a b => a ≤ b) (jsDedup notes) with _ | ⟨lo, rest⟩
      · rw [hs] at h
        cases h
      · rw [hs] at h
        simp only [List.head?] at h
        by_cases h3 : (calculateIntervals (jsDedup notes)).length = 0
        · rw [if_pos h3] at h
          cases h
        · rw [if_neg h3] at h
          cases hd : detectLoop (calculateIntervals (jsDedup notes)) with
          | none =>
            rw [hd] at h
            cases h
          | some pm =>
            rw [hd] at h
            cases pm with
            | mk i m =>
              exact ⟨by omega, i, m, rfl, lo, rest, rfl,
                (Option.some.inj h).symm⟩

/-- C2: on every identified chord, `hasSixth`/`hasSeventh`/
`hasMajorSeventh` hold exactly when 9/10/11 are in the full normalized
interval set relative to the matched root, and `hasNinth` holds
exactly when 2 is in that set or some input note lies strictly more
than 12 semitones above the lowest note with that distance ≡ 2 mod
12.  Instance: `[60, 64, 67, 69]` is "C Major" with only `hasSixth`
set. -/
theorem c2_extension_flags :
    (∀ (notes : List Int) (info : ChordInfo),
      getChordInfo notes = some info →
      ∀ (i : Nat) (m : ChordMatch),
        detectLoop (calculateIntervals (jsDedup notes)) = some (i, m) →
        ((info.hasSixth = true ↔
            (9 : Int) ∈ normalizeIntervals (calculateIntervals (jsDedup notes)) i) ∧
          (info.hasSeventh = true ↔
            (10 : Int) ∈ normalizeIntervals (calculateIntervals (jsDedup notes)) i) ∧
          (info.hasMajorSeventh = true ↔
            (11 : Int) ∈ normalizeIntervals (calculateIntervals (jsDedup notes)) i) ∧
          (info.hasNinth = true ↔
            ((2 : Int) ∈ normalizeIntervals (calculateIntervals (jsDedup notes)) i ∨
              ∃ note ∈ notes, 12 < note - jsMin (jsDedup notes) ∧
                (note - jsMin (jsDedup notes)).tmod 12 = 2)))) ∧
    (getChordInfo [60, 64, 67, 69]).map ChordInfo.chordName = some "C Major" ∧
    (getChordInfo [60, 64, 67, 69]).map ChordInfo.hasSixth = some true ∧
    (getChordInfo [60, 64, 67, 69]).map ChordInfo.hasSeventh = some false ∧
    (getChordInfo [60, 64, 67, 69]).map ChordInfo.hasMajorSeventh = some false ∧
    (getChordInfo [60, 64, 67, 69]).map ChordInfo.hasNinth = some false := by
  refine ⟨?_, by decide, by decide, by decide, by decide, by decide⟩
  intro notes info hinfo i m hdl
  obtain ⟨h3, i', m', hd', lo, rest, hs, hbuild⟩ := getChordInfo_some_elim hinfo
  have hpair := Option.some.inj (hd'.symm.trans hdl)
  obtain ⟨rfl, rfl⟩ := Prod.mk.inj hpair
  subst hbuild
  obtain ⟨hjsmin, hmemiff, hlorest⟩ := sorted_head_facts hs
  refine ⟨?_, ?_, ?_, ?_⟩
  · simp [buildChordInfo, checkExtendedIntervals, List.contains]
  · simp [buildChordInfo, checkExtendedIntervals, List.contains]
  · simp [buildChordInfo, checkExtendedIntervals, List.contains]
  · rw [show (buildChordInfo (jsDedup notes) (highNinthFlag (lo :: rest) lo) i' m').hasNinth =
        (highNinthFlag (lo :: rest) lo ||
          (normalizeIntervals (calculateIntervals (jsDedup notes)) i').contains 2) from rfl]
    rw [highNinthFlag_cons, hjsmin]
    simp only [Bool.or_eq_true, List.any_eq_true, Bool.and_eq_true, decide_eq_true_eq]
    constructor
    · rintro (⟨x, hx, hx1, hx2⟩ | hc)
      · right
        exact ⟨x, (jsDedup_mem notes x).mp ((hmemiff x).mpr (Or.inr hx)), hx1, hx2⟩
      · left
        exact (List.elem_iff).mp hc
    · rintro (hc | ⟨note, hnote, hn1, hn2⟩)
      · right
        exact List.elem_iff.mpr hc
      · left
        refine ⟨note, ?_, hn1, hn2⟩
        have hu : note ∈ jsDedup notes := (jsDedup_mem notes note).mpr hnote
        rcases (hmemiff note).mp hu with rfl | hr
        · omega
        · exact hr

theorem c2_extension_flags_witness :
    ({ chordName := "C Major", inversion := "Root", bassNote := "C4",
       hasSixth := true, hasSeventh := false, hasMajorSeventh := false,
       hasNinth := false } : ChordInfo).hasSixth = true ↔
      (9 : Int) ∈ normalizeIntervals (calculateIntervals (jsDedup [60, 64, 67, 69])) 0 :=
  (c2_extension_flags.1 [60, 64, 67, 69]
    { chordName := "C Major", inversion := "Root", bassNote := "C4",
      hasSixth := true, hasSeventh := false, hasMajorSeventh := false,
      hasNinth := false }
    (by decide) 0 ⟨ChordType.Major, [0, 4, 7], "C"⟩ (by decide)).1

lemma jsIndexOf_base_aux : ∀ k < 12,
    jsIndexOf BASE_NOTES ((BASE_NOTES.get? k).getD "C") = (k : Int) := by
  decide

lemma jsIndexOf_getBaseNoteName {n : Int} (h : 0 ≤ n) :
    jsIndexOf BASE_NOTES (getBaseNoteName n) = n.tmod 12 := by
  have h1 : 0 ≤ n.tmod 12 := Int.tmod_nonneg _ h
  have h2 : n.tmod 12 < 12 := Int.tmod_lt_of_pos n (by norm_num)
  have h3 : (n.tmod 12).toNat < 12 := by omega
  have h4 := jsIndexOf_base_aux (n.tmod 12).toNat h3
  simp only [getBaseNoteName]
  rw [if_pos h1, h4]
  omega

lemma jsIndexOf_of_get? {k : Nat} {s : String}
    (h : BASE_NOTES.get? k = some s) (hk : k < 12) :
    jsIndexOf BASE_NOTES s = (k : Int) := by
  have h4 := jsIndexOf_base_aux k hk
  rw [h] at h4
  simpa using h4

lemma detectLoop_rootNote {intervals : List Int} {i : Nat} {m : ChordMatch}
    (h : detectLoop intervals = some (i, m)) :
    ∃ rootIndex : Int, 0 ≤ rootIndex ∧ rootIndex < 12 ∧
      BASE_NOTES.get? rootIndex.toNat = some m.rootNote := by
  obtain ⟨p, hmem, hf⟩ := List.exists_of_findSome?_eq_some h
  by_cases hc : p.2 < 0 ∨ (BASE_NOTES.length : Int) ≤ p.2
  · rw [if_pos hc] at hf
    cases hf
  · rw [if_neg hc] at hf
    push_neg at hc
    cases hg : BASE_NOTES.get? p.2.toNat with
    | none =>
      rw [hg] at hf
      cases hf
    | some rootNote =>
      rw [hg] at hf
      simp only [] at hf
      by_cases hn : (normalizeIntervals intervals p.1).length = 0
      · rw [if_pos hn] at hf
        cases hf
      · rw [if_neg hn] at hf
        obtain ⟨m2, hm2, hpm⟩ := Option.map_eq_some'.mp hf
        obtain ⟨hpi, hmm⟩ := Prod.mk.inj hpm
        obtain ⟨entry, _, hm2eq, _, _⟩ := findChordPattern_some hm2
        refine ⟨p.2, hc.1, ?_, ?_⟩
        · have h12 := hc.2
          simpa [BASE_NOTES] using h12
        · rw [← hmm, hm2eq]
          exact hg

lemma determineInversion_text {lo : Int} {root : String} {ri : Int}
    (hlo : 0 ≤ lo) (hri : jsIndexOf BASE_NOTES root = ri) :
    (determineInversion lo root).1 =
      (if (lo.tmod 12 - ri + 12).tmod 12 = 4 ∨ (lo.tmod 12 - ri + 12).tmod 12 = 3
        then "1st"
      else if (lo.tmod 12 - ri + 12).tmod 12 = 7 ∨ (lo.tmod 12 - ri + 12).tmod 12 = 6
        then "2nd"
      else if (lo.tmod 12 - ri + 12).tmod 12 = 10 ∨ (lo.tmod 12 - ri + 12).tmod 12 = 11
        then "3rd"
      else "Root") := by
  simp only [determineInversion]
  rw [jsIndexOf_getBaseNoteName hlo, hri]
  by_cases heq : lo.tmod 12 = ri
  · rw [if_neg (by simpa using heq)]
    have hz : (lo.tmod 12 - ri + 12).tmod 12 = 0 := by
      rw [heq]
      norm_num
    rw [hz]
    norm_num
  · rw [if_pos heq]

/-- C6: for every identified chord, the inversion text is a function
of the offset `d` (mod 12) of the lowest note's pitch class above the
matched root's chromatic index — 3 or 4 gives "1st", 6 or 7 "2nd", 10
or 11 "3rd", 0 "Root" — independent of the matched pattern, and
`bassNote` names the lowest sounding MIDI note with its octave.
Instance: `[52, 55, 60]` is "C Major", inversion "1st", bass "E3". -/
theorem c6_inversion_and_bass :
    (∀ (notes : List Int), (∀ n ∈ notes, 0 ≤ n) →
      ∀ (info : ChordInfo), getChordInfo notes = some info →
      ∀ (i : Nat) (m : ChordMatch),
        detectLoop (calculateIntervals (jsDedup notes)) = some (i, m) →
        ∀ d : Int,
          d = ((jsMin (jsDedup notes)).tmod 12 -
            jsIndexOf BASE_NOTES m.rootNote + 12).tmod 12 →
          ((d = 3 ∨ d = 4) → info.inversion = "1st") ∧
          ((d = 6 ∨ d = 7) → info.inversion = "2nd") ∧
          ((d = 10 ∨ d = 11) → info.inversion = "3rd") ∧
          (d = 0 → info.inversion = "Root") ∧
          info.bassNote = getMIDINoteName (jsMin (jsDedup notes))) ∧
    (getChordInfo [52, 55, 60]).map ChordInfo.chordName = some "C Major" ∧
    (getChordInfo [52, 55, 60]).map ChordInfo.inversion = some "1st" ∧
    (getChordInfo [52, 55, 60]).map ChordInfo.bassNote = some "E3" := by
  refine ⟨?_, by decide, by decide, by decide⟩
  intro notes hpos info hinfo i m hdl d hd
  obtain ⟨h3, i', m', hd', lo, rest, hs, hbuild⟩ := getChordInfo_some_elim hinfo
  have hpair := Option.some.inj (hd'.symm.trans hdl)
  obtain ⟨rfl, rfl⟩ := Prod.mk.inj hpair
  subst hbuild
  obtain ⟨hjsmin, hmemiff, hrest⟩ := sorted_head_facts hs
  have hlo : 0 ≤ lo :=
    hpos lo ((jsDedup_mem notes lo).mp ((hmemiff lo).mpr (Or.inl rfl)))
  obtain ⟨ri, hri0, hri12, hget⟩ := detectLoop_rootNote hdl
  have hri : jsIndexOf BASE_NOTES m'.rootNote = ri := by
    have h5 := jsIndexOf_of_get? hget (by omega : ri.toNat < 12)
    rwa [Int.toNat_of_nonneg hri0] at h5
  have hinv : (buildChordInfo (jsDedup notes)
        (highNinthFlag (lo :: rest) lo) i' m').inversion =
      (determineInversion (jsMin (jsDedup notes)) m'.rootNote).1 := rfl
  rw [hjsmin, hri] at hd
  rw [hjsmin] at hinv
  have htext := determineInversion_text hlo hri
  have hfull := hinv.trans htext
  rw [← hd] at hfull
  refine ⟨?_, ?_, ?_, ?_, ?_⟩
  · intro hcase
    rw [hfull]
    rcases hcase with h | h <;> rw [h] <;> norm_num
  · intro hcase
    rw [hfull]
    rcases hcase with h | h <;> rw [h] <;> norm_num
  · intro hcase
    rw [hfull]
    rcases hcase with h | h <;> rw [h] <;> norm_num
  · intro hcase
    rw [hfull, hcase]
    norm_num
  · rfl

theorem c6_inversion_and_bass_witness :
    ({ chordName := "C Major", inversion := "1st", bassNote := "E3",
       hasSixth := false, hasSeventh := false, hasMajorSeventh := false,
       hasNinth := false } : ChordInfo).inversion = "1st" ∧
    ({ chordName := "C Major", inversion := "1st", bassNote := "E3",
       hasSixth := false, hasSeventh := false, hasMajorSeventh := false,
       hasNinth := false } : ChordInfo).bassNote =
      getMIDINoteName (jsMin (jsDedup [52, 55, 60])) :=
  ⟨((c6_inversion_and_bass.1 [52, 55, 60] (by decide)
      { chordName := "C Major", inversion := "1st", bassNote := "E3",
        hasSixth := false, hasSeventh := false, hasMajorSeventh := false,
        hasNinth := false }
      (by decide) 2 ⟨ChordType.Major, [0, 4, 7], "C"⟩ (by decide) 4
      (by decide)).1) (Or.inr rfl),
    (c6_inversion_and_bass.1 [52, 55, 60] (by decide)
      { chordName := "C Major", inversion := "1st", bassNote := "E3",
        hasSixth := false, hasSeventh := false, hasMajorSeventh := false,
        hasNinth := false }
      (by decide) 2 ⟨ChordType.Major, [0, 4, 7], "C"⟩ (by decide) 4
      (by decide)).2.2.2.2⟩

set_option maxRecDepth 10000 in
set_option maxHeartbeats 4000000 in
/-- C5: for every natural note, quality, and voicing-table entry, the
chord-notes lookup produces exactly the space-joined token list of its
`generateChordNotes` call; there are 3 tokens, each of the 3 distinct
transposed pitch-class names appears in exactly one token together with
a single-digit octave number, every token is such a name/octave pair,
and no two tokens (name/octave pairs) coincide. -/
theorem c5_roundtrip :
    ∀ note ∈ wholeNotes, ∀ q ∈ allChordTypes,
      ∀ e ∈ getVoicingsForNote note q,
        getChordNotes note (some e) (chordShortName q) =
          String.intercalate " " (chordNoteTokens note e q) ∧
        (chordNoteTokens note e q).length = 3 ∧
        (transposedPitchClassNames note q).Nodup ∧
        (chordNoteTokens note e q).Nodup ∧
        (∀ nm ∈ transposedPitchClassNames note q,
          ∃ tok ∈ chordNoteTokens note e q, ∃ o < 9, tok = nm ++ toString o) ∧
        (∀ tok ∈ chordNoteTokens note e q,
          ∃ nm ∈ transposedPitchClassNames note q, ∃ o < 9, tok = nm ++ toString o) := by
  decide

theorem c5_roundtrip_witness :
    ("C" ∈ wholeNotes ∧ ChordType.Major ∈ allChordTypes ∧
      (⟨-11, 1, 0⟩ : VoicingEntry) ∈ getVoicingsForNote "C" ChordType.Major) ∧
    (getChordNotes "C" (some ⟨-11, 1, 0⟩) (chordShortName ChordType.Major) =
        String.intercalate " " (chordNoteTokens "C" ⟨-11, 1, 0⟩ ChordType.Major) ∧
      (chordNoteTokens "C" ⟨-11, 1, 0⟩ ChordType.Major).length = 3 ∧
      (transposedPitchClassNames "C" ChordType.Major).Nodup ∧
      (chordNoteTokens "C" ⟨-11, 1, 0⟩ ChordType.Major).Nodup ∧
      (∀ nm ∈ transposedPitchClassNames "C" ChordType.Major,
        ∃ tok ∈ chordNoteTokens "C" ⟨-11, 1, 0⟩ ChordType.Major,
          ∃ o < 9, tok = nm ++ toString o) ∧
      (∀ tok ∈ chordNoteTokens "C" ⟨-11, 1, 0⟩ ChordType.Major,
        ∃ nm ∈ transposedPitchClassNames "C" ChordType.Major,
          ∃ o < 9, tok = nm ++ toString o)) :=
  ⟨⟨by decide, by decide, by decide⟩,
    c5_roundtrip "C" (by decide) ChordType.Major (by decide)
      ⟨-11, 1, 0⟩ (by decide)⟩
